import Mathlib

/-!
# opm-common: keyword registry, keyword loop of the parser, output multiplexer

A shallow embedding of

* `src/opm/parser/eclipse/Parser/Parser.cpp` (`Parser::addKW`, `Parser::parse`),
* `src/opm/output/OutputWriter.cpp` (`MultiWriter`, `FORMATS`, `OutputWriter::create`),

followed by theorems about the embedded functions.

Conventions.  `std::map` is an association list kept in strictly increasing
key order; `size_t` is a natural number reduced modulo `2 ^ 64`; a C++ call
that can throw returns `Except`; a loop that may run for a long time is
executed with a bound on the number of evaluations of its condition.
-/

namespace Opm

/-! ## `std::map` -/

/-- Entries of a `std::map<K, V>`, in iteration (increasing key) order. -/
abbrev StdMap (K V : Type) := List (K × V)

namespace StdMap

variable {K V : Type}

/-- Class invariant of `std::map`: keys strictly increasing in iteration order. -/
def WF [LT K] (m : StdMap K V) : Prop :=
  List.Pairwise (fun a b => a.1 < b.1) m

/-- Lookup as done by `std::map::find`: the value stored under `k`, if any. -/
def find [DecidableEq K] : StdMap K V → K → Option V
  | [], _ => none
  | (k', v') :: rest, k => if k' = k then some v' else find rest k

/-- Membership of a key, `m.count(k) != 0`. -/
def contains [DecidableEq K] (m : StdMap K V) (k : K) : Bool :=
  (find m k).isSome

/-- Single-element `std::map::insert(value_type)`: the pair is stored at its
place in key order when no entry has an equivalent key; when such an entry
exists the container is left as it is. -/
def insert [LinearOrder K] : StdMap K V → K → V → StdMap K V
  | [], k, v => [(k, v)]
  | (k', v') :: rest, k, v =>
    if k < k' then (k, v) :: (k', v') :: rest
    else if k' < k then (k', v') :: insert rest k v
    else (k', v') :: rest

end StdMap

/-! ## `Parser::addKW` -/

/-- Modelled from the spec: `ParserKW` (declared in `ParserKW.hpp`, which is
not part of the sources at hand).  A keyword schema has a name, returned by
`getName()`, and a record shape, kept abstract in `Shape`. -/
structure ParserKW (Shape : Type) where
  m_name : String
  shape : Shape
  deriving DecidableEq, Repr

/-- Accessor `ParserKW::getName`. -/
def ParserKW.getName {Shape : Type} (kw : ParserKW Shape) : String := kw.m_name

/-- Errors of the registry named by the specification. -/
inductive RegistryError where
  | DuplicateKeywordError (name : String)
  deriving DecidableEq, Repr

/-- The `Parser` object: its only data member used by the code at hand is
`m_parserKeywords`, a `std::map` from keyword name to schema. -/
structure Parser (Shape : Type) where
  m_parserKeywords : StdMap String (ParserKW Shape)

/-- `Parser::addKW` (Parser.cpp, lines 54-56):
`m_parserKeywords.insert(std::make_pair(parserKW->getName(), parserKW));`
There is no `throw` on any path, so every call returns normally. -/
def Parser.addKW {Shape : Type} (p : Parser Shape) (parserKW : ParserKW Shape) :
    Except RegistryError (Parser Shape) :=
  .ok { p with
    m_parserKeywords := StdMap.insert p.m_parserKeywords parserKW.getName parserKW }

/-- The registration contract in the words of the specification (section 4.2):
`register(schema)` fails with `DuplicateKeywordError` if the name already
exists, and stores the schema otherwise. -/
def registerSpec {Shape : Type} (p : Parser Shape) (schema : ParserKW Shape) :
    Except RegistryError (Parser Shape) :=
  if StdMap.contains p.m_parserKeywords schema.getName then
    .error (.DuplicateKeywordError schema.getName)
  else
    .ok { p with
      m_parserKeywords := StdMap.insert p.m_parserKeywords schema.getName schema }

/-! ## `Parser::parse` -/

/-- Modulus of `size_t` arithmetic. -/
def SIZE_MOD : Nat := 2 ^ 64

/-- Modelled from the spec: `RawKeyword` (section 3; `RawDeck.hpp` and
`RawKeyword.hpp` are not part of the sources at hand): a name followed by an
ordered sequence of raw records, each an ordered sequence of raw tokens. -/
structure RawKeyword where
  name : String
  records : List (List String)
  deriving DecidableEq, Repr

/-- Modelled from the spec: `RawDeck` as left by `RawDeck::parse(path)`, the
ordered sequence of raw keyword blocks read by the tokenizer. -/
abbrev RawDeck := List RawKeyword

/-- Modelled from the spec: `DeckKeyword` (section 3): a name and an ordered
sequence of records. -/
structure DeckKeyword where
  name : String
  records : List (List String)
  deriving DecidableEq, Repr

/-- Modelled from the spec: `Deck` (section 3): the ordered sequence of
`DeckKeyword`. -/
abbrev Deck := List DeckKeyword

/-- Failures raised while the raw deck is read. -/
inductive ParseError where
  | rangeError (index : Nat)
  deriving DecidableEq, Repr

/-- Modelled from the spec: `RawDeck::getNumberOfKeywords`, the number of raw
keyword blocks, as a `size_t`. -/
def RawDeck.getNumberOfKeywords (rawDeck : RawDeck) : Nat :=
  rawDeck.length % SIZE_MOD

/-- Modelled from the spec: `RawDeck::getKeyword(index)`, the raw keyword at
position `index`; a position outside the deck is a range error. -/
def RawDeck.getKeyword (rawDeck : RawDeck) (index : Nat) : Except ParseError RawKeyword :=
  match rawDeck.get? index with
  | some kw => .ok kw
  | none => .error (.rangeError index)

/-- Variables of the keyword loop of `Parser::parse`, with the observable
effect of the loop so far: the indices passed to `getKeyword`, oldest first. -/
structure LoopState where
  i : Nat
  requested : List Nat
  deriving DecidableEq, Repr

/-- What one pass through the loop header and body does. -/
inductive IterResult where
  | exit (s : LoopState)
  | again (s : LoopState)
  | throw (e : ParseError) (s : LoopState)
  deriving DecidableEq, Repr

/-- The expression `i++` on a `size_t`: its value is the old `i`, and `i`
becomes `i + 1` modulo `2 ^ 64`. -/
def postIncrement (i : Nat) : Nat × Nat := (i, (i + 1) % SIZE_MOD)

/-- One evaluation of the loop condition followed, when it holds, by the body
(Parser.cpp, lines 38-40):
`for (size_t i = rawDeck->getNumberOfKeywords(); i++) { rawKeyword = rawDeck->getKeyword(0); }`
The header has two clauses only; `i++` is read as the condition, so the
condition holds exactly when the value of `i` before the increment is not
zero, and there is no separate increment clause. -/
def loopIter (rawDeck : RawDeck) (s : LoopState) : IterResult :=
  let (cond, i') := postIncrement s.i
  if cond = 0 then
    .exit { s with i := i' }
  else
    match rawDeck.getKeyword 0 with
    | .ok _ => .again { i := i', requested := s.requested ++ [0] }
    | .error e => .throw e { i := i', requested := s.requested ++ [0] }

/-- How a bounded run of the loop stands. -/
inductive LoopOutcome where
  | finished (s : LoopState)
  | running (s : LoopState)
  | thrown (e : ParseError) (s : LoopState)
  deriving DecidableEq, Repr

/-- State carried by an outcome. -/
def LoopOutcome.state : LoopOutcome → LoopState
  | .finished s => s
  | .running s => s
  | .thrown _ s => s

/-- The loop run from state `s`, allowing at most `bound` evaluations of the
condition: `finished` when the condition has evaluated to false, `running`
when `bound` evaluations were all true. -/
def runLoop (rawDeck : RawDeck) : Nat → LoopState → LoopOutcome
  | 0, s => .running s
  | bound + 1, s =>
    match loopIter rawDeck s with
    | .exit s' => .finished s'
    | .again s' => runLoop rawDeck bound s'
    | .throw e s' => .thrown e s'

/-- The keyword loop of `Parser::parse` from its initialisation
`size_t i = rawDeck->getNumberOfKeywords()`. -/
def keywordLoop (rawDeck : RawDeck) (bound : Nat) : LoopOutcome :=
  runLoop rawDeck bound { i := rawDeck.getNumberOfKeywords, requested := [] }

/-- Number of passes through the body that it takes `i`, started at the keyword
count, to reach zero by wrapping around: `2 ^ 64 - n`, and `0` for `n = 0`. -/
def passes (rawDeck : RawDeck) : Nat :=
  (SIZE_MOD - rawDeck.getNumberOfKeywords) % SIZE_MOD

/-- Result of a call of `Parser::parse`. -/
inductive ParseOutcome where
  | returned (deck : Deck) (requested : List Nat) (log : List String)
  | running (requested : List Nat)
  | thrown (e : ParseError) (requested : List Nat)
  deriving DecidableEq, Repr

/-- `Parser::parse` (Parser.cpp, lines 31-46).  `rawDeck` is the raw deck
after `rawDeck->parse(path)`.  The function returns the variable `deck`, which
no statement of the function declares or assigns; its value is passed in and
comes back as it was.  The two `Logger::info` messages are collected in the
third component. -/
def Parser.parse (bound : Nat) (rawDeck : RawDeck) (deck : Deck) (path : String) :
    ParseOutcome :=
  let log := ["Starting parsing of file: " ++ path]
  match keywordLoop rawDeck bound with
  | .finished s => .returned deck s.requested (log ++ ["Done parsing of file: " ++ path])
  | .running s => .running s.requested
  | .thrown e s => .thrown e s.requested

/-- The keyword loop in the words of the specification (sections 4.3 and 9):
every raw keyword, in order, is fetched once and folded into the deck. -/
def parseSpec (rawDeck : RawDeck) (deck : Deck) : List Nat × Deck :=
  (List.range rawDeck.length,
   deck ++ rawDeck.map (fun kw => { name := kw.name, records := kw.records }))

/-! ## `MultiWriter` -/

/-- Types of the simulator that the output layer only passes along. -/
structure Ext where
  Dbl : Type
  NNC : Type
  SimulationDataContainer : Type
  WellState : Type
  PhaseUsage : Type
  GlobalCell : Type
  StateRest : Type
  WriterState : Type
  Failure : Type

/-- Arguments of `OutputWriter::writeInit`. -/
structure InitArgs (T : Ext) where
  current : Int
  start : T.Dbl
  nnc : T.NNC

/-- Arguments of `OutputWriter::writeTimeStep`. -/
structure TimeStepArgs (T : Ext) where
  report_step : Int
  current_time : Int
  secs_elapsed : T.Dbl
  reservoirState : T.SimulationDataContainer
  wellState : T.WellState
  isSubstep : Bool

/-- A call of one of the two virtual methods with its arguments. -/
inductive Call (T : Ext) where
  | writeInit (args : InitArgs T)
  | writeTimeStep (args : TimeStepArgs T)

/-- The abstract class `OutputWriter`: an object with the two virtual
methods.  `state` is what the object's methods act on (its members and the
output it has produced); a method takes the state it finds to the state it
leaves and either returns or throws.  `ident` tells the objects apart in the
record of invocations. -/
structure OutputWriter (T : Ext) where
  ident : Nat
  state : T.WriterState
  writeInit : InitArgs T → T.WriterState → T.WriterState × Except T.Failure Unit
  writeTimeStep : TimeStepArgs T → T.WriterState → T.WriterState × Except T.Failure Unit

/-- Record of the invocations made on inner writers, oldest first. -/
abbrev Invocations (T : Ext) := List (Nat × Call T)

/-- `MultiWriter`, the multiplexer over the owned list `writers_`. -/
structure MultiWriter (T : Ext) where
  writers_ : List (OutputWriter T)

/-- What a call on the multiplexer leaves: the owned writers, each in the
state its own method left it in, the record of the invocations made, and
whether the call returned or threw. -/
structure Forwarded (T : Ext) where
  writers : List (OutputWriter T)
  invocations : Invocations T
  result : Except T.Failure Unit

/-- The loop of `MultiWriter::writeInit` (OutputWriter.cpp, lines 30-32) from
iterator position `w :: rest`, with the writers already passed in `visited`:
`(*it)->writeInit (current, start, nnc)` for each element up to `end ()`; an
exception leaves the loop at once, the remaining writers untouched. -/
def MultiWriter.writeInitLoop {T : Ext} (args : InitArgs T) :
    List (OutputWriter T) → List (OutputWriter T) → Invocations T → Forwarded T
  | [], visited, inv => { writers := visited, invocations := inv, result := .ok () }
  | w :: rest, visited, inv =>
    match w.writeInit args w.state with
    | (state', .ok _) =>
      writeInitLoop args rest (visited ++ [{ w with state := state' }])
        (inv ++ [(w.ident, Call.writeInit args)])
    | (state', .error e) =>
      { writers := visited ++ { w with state := state' } :: rest
        invocations := inv ++ [(w.ident, Call.writeInit args)]
        result := .error e }

/-- `MultiWriter::writeInit` (OutputWriter.cpp, lines 29-33). -/
def MultiWriter.writeInit {T : Ext} (m : MultiWriter T) (args : InitArgs T) :
    Forwarded T :=
  MultiWriter.writeInitLoop args m.writers_ [] []

/-- The loop of `MultiWriter::writeTimeStep` (OutputWriter.cpp, lines 41-44). -/
def MultiWriter.writeTimeStepLoop {T : Ext} (args : TimeStepArgs T) :
    List (OutputWriter T) → List (OutputWriter T) → Invocations T → Forwarded T
  | [], visited, inv => { writers := visited, invocations := inv, result := .ok () }
  | w :: rest, visited, inv =>
    match w.writeTimeStep args w.state with
    | (state', .ok _) =>
      writeTimeStepLoop args rest (visited ++ [{ w with state := state' }])
        (inv ++ [(w.ident, Call.writeTimeStep args)])
    | (state', .error e) =>
      { writers := visited ++ { w with state := state' } :: rest
        invocations := inv ++ [(w.ident, Call.writeTimeStep args)]
        result := .error e }

/-- `MultiWriter::writeTimeStep` (OutputWriter.cpp, lines 35-45). -/
def MultiWriter.writeTimeStep {T : Ext} (m : MultiWriter T) (args : TimeStepArgs T) :
    Forwarded T :=
  MultiWriter.writeTimeStepLoop args m.writers_ [] []

/-! ## `OutputWriter::create` -/

/-- Modelled from the spec: `ParameterGroup` (opm-core, not part of the
sources at hand), the runtime parameters: what each name reads as, as a
boolean and as a string, when the parameter is present. -/
structure ParameterGroup where
  boolValue : String → Option Bool
  stringValue : String → Option String

/-- Modelled from the spec: `ParameterGroup::getDefault<bool>(name, default)`:
the value of the parameter, the default when it is absent. -/
def ParameterGroup.getDefaultBool (params : ParameterGroup) (name : String)
    (defaultValue : Bool) : Bool :=
  (params.boolValue name).getD defaultValue

/-- Modelled from the spec: `ParameterGroup::getDefault<std::string>(name, default)`. -/
def ParameterGroup.getDefaultString (params : ParameterGroup) (name : String)
    (defaultValue : String) : String :=
  (params.stringValue name).getD defaultValue

/-- Modelled from the spec: `IOConfig` (opm-parser, not part of the sources
at hand): the output-enabled flag and the output directory. -/
structure IOConfig where
  m_output_enabled : Bool
  m_output_dir : String
  deriving DecidableEq, Repr

/-- Modelled from the spec: `IOConfig::setOutputEnabled`. -/
def IOConfig.setOutputEnabled (c : IOConfig) (enabled : Bool) : IOConfig :=
  { c with m_output_enabled := enabled }

/-- Modelled from the spec: `IOConfig::setOutputDir`. -/
def IOConfig.setOutputDir (c : IOConfig) (dir : String) : IOConfig :=
  { c with m_output_dir := dir }

/-- Modelled from the spec: `EclipseState`, of which the code at hand uses the
IO configuration reached through `getIOConfig()`; `rest` is everything else. -/
structure EclipseState (T : Ext) where
  ioConfig : IOConfig
  rest : T.StateRest

/-- Fields of `UnstructuredGrid` read by the pseudo-constructor. -/
structure UnstructuredGrid (T : Ext) where
  number_of_cells : Int
  global_cell : T.GlobalCell

/-- Constructor of a writer format, `Format (eclipseState, number_of_cells, global_cell)`. -/
abbrev FormatCtor (T : Ext) := EclipseState T → Int → T.GlobalCell → OutputWriter T

/-- Value type of the `FORMATS` map: pointer to a pseudo-constructor. -/
abbrev CreateFn (T : Ext) :=
  ParameterGroup → EclipseState T → T.PhaseUsage → UnstructuredGrid T → OutputWriter T

/-- The template `create <Format>` of the anonymous namespace
(OutputWriter.cpp, lines 52-60). -/
def createFormat {T : Ext} (Format : FormatCtor T) : CreateFn T :=
  fun _params eclipseState _phaseUsage grid =>
    Format eclipseState grid.number_of_cells grid.global_cell

/-- The table `FORMATS` (OutputWriter.cpp, lines 73-75), in iteration order;
`EclipseWriter` is the constructor of the class of that name. -/
def FORMATS {T : Ext} (EclipseWriter : FormatCtor T) : List (String × CreateFn T) :=
  [("output_ecl", createFormat EclipseWriter)]

/-- The loop of `OutputWriter::create` (OutputWriter.cpp, lines 91-107) from
iterator position `formats`, threading the state reached through the shared
`eclipseState` pointer and the list of writers built so far. -/
def OutputWriter.createLoop {T : Ext} (params : ParameterGroup)
    (phaseUsage : T.PhaseUsage) (grid : UnstructuredGrid T) :
    List (String × CreateFn T) → EclipseState T → List (OutputWriter T) →
      EclipseState T × List (OutputWriter T)
  | [], eclipseState, list => (eclipseState, list)
  | (name, ctor) :: rest, eclipseState, list =>
    if params.getDefaultBool name false then
      let ioConfig := eclipseState.ioConfig
      let ioConfig := ioConfig.setOutputEnabled (params.getDefaultBool "output" true)
      let ioConfig := ioConfig.setOutputDir (params.getDefaultString "output_dir" ".")
      let eclipseState := { eclipseState with ioConfig := ioConfig }
      createLoop params phaseUsage grid rest eclipseState
        (ctor params eclipseState phaseUsage grid :: list)
    else
      createLoop params phaseUsage grid rest eclipseState list

/-- `OutputWriter::create` (OutputWriter.cpp, lines 79-111) over a table of
formats: the state after the call and the multiplexer returned. -/
def OutputWriter.create {T : Ext} (formats : List (String × CreateFn T))
    (params : ParameterGroup) (eclipseState : EclipseState T)
    (phaseUsage : T.PhaseUsage) (grid : UnstructuredGrid T) :
    EclipseState T × MultiWriter T :=
  let r := OutputWriter.createLoop params phaseUsage grid formats eclipseState []
  (r.1, { writers_ := r.2 })

/-- The IO configuration written by the branch taken for an enabled format. -/
def configured {T : Ext} (params : ParameterGroup) (eclipseState : EclipseState T) :
    EclipseState T :=
  { eclipseState with
    ioConfig := (eclipseState.ioConfig.setOutputEnabled
      (params.getDefaultBool "output" true)).setOutputDir
      (params.getDefaultString "output_dir" ".") }

/-- Entries of a table whose key reads as true, in table order. -/
def enabledFormats {T : Ext} (params : ParameterGroup)
    (formats : List (String × CreateFn T)) : List (String × CreateFn T) :=
  formats.filter (fun e => params.getDefaultBool e.1 false)

/-! ## Sample inputs -/

/-- Raw keyword `DIMENS` with the record `10 10 3 /`. -/
def rawDIMENS : RawKeyword := { name := "DIMENS", records := [["10", "10", "3"]] }

/-- Raw keyword `START` with the record `1 'JAN' 2020 /`. -/
def rawSTART : RawKeyword := { name := "START", records := [["1", "'JAN'", "2020"]] }

/-- A raw deck of two keywords. -/
def sampleRawDeck : RawDeck := [rawDIMENS, rawSTART]

/-- Two schemas of the same name that differ in their shape, and one of
another name. -/
def schemaDIMENS : ParserKW Nat := { m_name := "DIMENS", shape := 3 }

/-- A second schema named `DIMENS`. -/
def schemaDIMENS2 : ParserKW Nat := { m_name := "DIMENS", shape := 4 }

/-- A schema named `START`. -/
def schemaSTART : ParserKW Nat := { m_name := "START", shape := 3 }

/-- A parser in which `DIMENS` and `START` are registered. -/
def sampleParser : Parser Nat :=
  { m_parserKeywords := [("DIMENS", schemaDIMENS), ("START", schemaSTART)] }

/-- Instance of the passed-along types used by the sample inputs. -/
abbrev SampleExt : Ext :=
  { Dbl := Int
    NNC := List (Nat × Nat)
    SimulationDataContainer := List Int
    WellState := List Int
    PhaseUsage := Nat
    GlobalCell := List Int
    StateRest := Nat
    WriterState := List (String × Int)
    Failure := String }

/-- A writer that accepts every call; its state is the list of the calls it
has received, each as the method's name and first argument. -/
def sampleWriterA : OutputWriter SampleExt :=
  { ident := 1
    state := []
    writeInit := fun a st => (st ++ [("writeInit", a.current)], .ok ())
    writeTimeStep := fun a st => (st ++ [("writeTimeStep", a.report_step)], .ok ()) }

/-- A writer that notes every call and then fails. -/
def sampleWriterB : OutputWriter SampleExt :=
  { ident := 2
    state := []
    writeInit := fun a st => (st ++ [("writeInit", a.current)], .error "disk full")
    writeTimeStep := fun a st =>
      (st ++ [("writeTimeStep", a.report_step)], .error "disk full") }

/-- A second writer that accepts every call, with one call already received. -/
def sampleWriterC : OutputWriter SampleExt :=
  { ident := 3
    state := [("writeInit", 0)]
    writeInit := fun a st => (st ++ [("writeInit", a.current)], .ok ())
    writeTimeStep := fun a st => (st ++ [("writeTimeStep", a.report_step)], .ok ()) }

/-- Arguments of a `writeInit` call. -/
def sampleInit : InitArgs SampleExt :=
  { current := 1577836800, start := 0, nnc := [(0, 5)] }

/-- Arguments of a `writeTimeStep` call. -/
def sampleStep : TimeStepArgs SampleExt :=
  { report_step := 1, current_time := 1577923200, secs_elapsed := 86400
    reservoirState := [200, 201], wellState := [7], isSubstep := false }

/-- A constructor standing for `EclipseWriter`. -/
def sampleEclipseWriter : FormatCtor SampleExt :=
  fun _ number_of_cells _ =>
    { ident := number_of_cells.toNat
      state := []
      writeInit := fun a st => (st ++ [("writeInit", a.current)], .ok ())
      writeTimeStep := fun a st => (st ++ [("writeTimeStep", a.report_step)], .ok ()) }

/-- Parameters `output_ecl=true output=false output_dir=results`. -/
def sampleParamsOn : ParameterGroup :=
  { boolValue := fun name =>
      if name = "output_ecl" then some true
      else if name = "output" then some false else none
    stringValue := fun name => if name = "output_dir" then some "results" else none }

/-- Parameters `output=false output_dir=results`, without `output_ecl`. -/
def sampleParamsOff : ParameterGroup :=
  { boolValue := fun name => if name = "output" then some false else none
    stringValue := fun name => if name = "output_dir" then some "results" else none }

/-- A state whose IO configuration has output enabled, directory `out`. -/
def sampleState : EclipseState SampleExt :=
  { ioConfig := { m_output_enabled := true, m_output_dir := "out" }, rest := 0 }

/-- A grid of 300 cells. -/
def sampleGrid : UnstructuredGrid SampleExt :=
  { number_of_cells := 300, global_cell := [] }

/-! ## Lemmas on `std::map` -/

namespace StdMap

variable {K V : Type}

theorem insert_of_contains [DecidableEq K] [LinearOrder K] (m : StdMap K V) (k : K) (v : V)
    (hwf : WF m) (hk : contains m k = true) : insert m k v = m := by
  induction m with
  | nil => simp [contains, find] at hk
  | cons hd tl ih =>
    obtain ⟨k', v'⟩ := hd
    have hrel : ∀ a ∈ tl, k' < a.1 := (List.pairwise_cons.mp hwf).1
    have htl : WF tl := (List.pairwise_cons.mp hwf).2
    by_cases heq : k' = k
    · subst heq
      simp [insert]
    · have hin : contains tl k = true := by
        simpa [contains, find, heq] using hk
      have hmem : ∃ a ∈ tl, a.1 = k := by
        clear ih hrel htl hwf hk
        induction tl with
        | nil => simp [contains, find] at hin
        | cons b tl' ih' =>
          by_cases hb : b.1 = k
          · exact ⟨b, List.mem_cons_self _ _, hb⟩
          · have : contains tl' k = true := by
              simpa [contains, find, hb] using hin
            obtain ⟨a, ha, hak⟩ := ih' this
            exact ⟨a, List.mem_cons_of_mem _ ha, hak⟩
      obtain ⟨a, ha, hak⟩ := hmem
      have hlt : k' < k := hak ▸ hrel a ha
      have hnlt : ¬ k < k' := not_lt.mpr hlt.le
      simp [insert, hnlt, hlt, ih htl hin]

theorem find_insert_self [DecidableEq K] [LinearOrder K] (m : StdMap K V) (k : K) (v : V)
    (hk : contains m k = false) : find (insert m k v) k = some v := by
  induction m with
  | nil => simp [insert, find]
  | cons hd tl ih =>
    obtain ⟨k', v'⟩ := hd
    have hne : k' ≠ k := by
      intro h
      simp [contains, find, h] at hk
    have htl : contains tl k = false := by
      simpa [contains, find, hne] using hk
    by_cases h1 : k < k'
    · simp [insert, h1, find]
    · have h2 : k' < k := lt_of_le_of_ne (not_lt.mp h1) hne
      simp [insert, h1, h2, find, hne]
      simpa [contains] using ih htl

theorem find_insert_other [DecidableEq K] [LinearOrder K] (m : StdMap K V) (k : K) (v : V)
    (x : K) (hx : x ≠ k) : find (insert m k v) x = find m x := by
  induction m with
  | nil => simp [insert, find, Ne.symm hx]
  | cons hd tl ih =>
    obtain ⟨k', v'⟩ := hd
    by_cases h1 : k < k'
    · simp [insert, h1, find, Ne.symm hx]
    · by_cases h2 : k' < k
      · simp [insert, h1, h2, find, ih]
      · simp [insert, h1, h2]

theorem insert_wf [LinearOrder K] (m : StdMap K V) (k : K) (v : V)
    (hwf : WF m) : WF (insert m k v) := by
  induction m with
  | nil => simp [insert, WF]
  | cons hd tl ih =>
    obtain ⟨k', v'⟩ := hd
    have hrel : ∀ a ∈ tl, k' < a.1 := (List.pairwise_cons.mp hwf).1
    have htl : WF tl := (List.pairwise_cons.mp hwf).2
    by_cases h1 : k < k'
    · simp only [insert, h1, if_true]
      refine List.pairwise_cons.mpr ⟨?_, hwf⟩
      intro a ha
      rcases List.mem_cons.mp ha with rfl | ha'
      · exact h1
      · exact lt_trans h1 (hrel a ha')
    · by_cases h2 : k' < k
      · simp only [insert, h1, h2, if_true, if_false]
        refine List.pairwise_cons.mpr ⟨?_, ih htl⟩
        intro a ha
        have hsub : a = (k, v) ∨ a ∈ tl := by
          clear ih hrel htl hwf
          induction tl with
          | nil => simpa [insert] using ha
          | cons b tl' ih' =>
            by_cases hb1 : k < b.1
            · simp only [insert, hb1, if_true] at ha
              rcases List.mem_cons.mp ha with h | h
              · exact Or.inl h
              · exact Or.inr h
            · by_cases hb2 : b.1 < k
              · simp only [insert, hb1, hb2, if_true, if_false] at ha
                rcases List.mem_cons.mp ha with h | h
                · exact Or.inr (h ▸ List.mem_cons_self _ _)
                · rcases ih' h with h' | h'
                  · exact Or.inl h'
                  · exact Or.inr (List.mem_cons_of_mem _ h')
              · simp only [insert, hb1, hb2, if_false] at ha
                exact Or.inr ha
        rcases hsub with rfl | ha'
        · exact h2
        · exact hrel a ha'
      · simpa [insert, h1, h2] using hwf

end StdMap

/-! ## Lemmas on the keyword loop -/

theorem SIZE_MOD_pos : 0 < SIZE_MOD := by
  unfold SIZE_MOD
  exact Nat.two_pow_pos 64

theorem one_lt_SIZE_MOD : 1 < SIZE_MOD := by
  unfold SIZE_MOD
  exact Nat.one_lt_two_pow (by decide)

theorem getKeyword_zero_of_ne_nil (rawDeck : RawDeck) (h : rawDeck ≠ []) :
    ∃ kw, rawDeck.getKeyword 0 = .ok kw := by
  cases rawDeck with
  | nil => exact absurd rfl h
  | cons kw rest => exact ⟨kw, rfl⟩

theorem loopIter_zero (rawDeck : RawDeck) (tr : List Nat) :
    loopIter rawDeck { i := 0, requested := tr } = .exit { i := 1, requested := tr } := by
  have h : (0 + 1) % SIZE_MOD = 1 := Nat.mod_eq_of_lt one_lt_SIZE_MOD
  simp [loopIter, postIncrement, h]

theorem loopIter_pos (rawDeck : RawDeck) (hne : rawDeck ≠ []) (i : Nat) (tr : List Nat)
    (hi : 0 < i) :
    loopIter rawDeck { i := i, requested := tr } =
      .again { i := (i + 1) % SIZE_MOD, requested := tr ++ [0] } := by
  obtain ⟨kw, hkw⟩ := getKeyword_zero_of_ne_nil rawDeck hne
  have h0 : i ≠ 0 := Nat.pos_iff_ne_zero.mp hi
  simp [loopIter, postIncrement, h0, hkw]

theorem replicate_snoc_zero (tr : List Nat) (b : Nat) :
    (tr ++ [0]) ++ List.replicate b 0 = tr ++ List.replicate (b + 1) 0 := by
  rw [List.append_assoc, List.replicate_succ]
  rfl

/-- While fewer evaluations are allowed than it takes `i` to wrap around, the
loop is still running, and every one of them requested index 0. -/
theorem runLoop_running (rawDeck : RawDeck) (hne : rawDeck ≠ []) :
    ∀ (b i : Nat) (tr : List Nat), 0 < i → i < SIZE_MOD → i + b ≤ SIZE_MOD →
      runLoop rawDeck b { i := i, requested := tr } =
        .running { i := (i + b) % SIZE_MOD, requested := tr ++ List.replicate b 0 } := by
  intro b
  induction b with
  | zero =>
    intro i tr _ hlt _
    simp [runLoop, Nat.mod_eq_of_lt hlt]
  | succ b ih =>
    intro i tr hpos hlt hle
    rw [runLoop, loopIter_pos rawDeck hne i tr hpos]
    show runLoop rawDeck b _ = _
    by_cases hwrap : i + 1 = SIZE_MOD
    · have hb : b = 0 := by omega
      subst hb
      simp [runLoop]
    · have hlt' : i + 1 < SIZE_MOD := by omega
      rw [Nat.mod_eq_of_lt hlt', ih (i + 1) (tr ++ [0]) (by omega) hlt' (by omega),
        replicate_snoc_zero]
      have : i + 1 + b = i + (b + 1) := by omega
      rw [this]

/-- Once more evaluations are allowed than it takes `i` to wrap around, the
condition has evaluated to false, after `SIZE_MOD - i` passes through the body. -/
theorem runLoop_finished (rawDeck : RawDeck) (hne : rawDeck ≠ []) :
    ∀ (b i : Nat) (tr : List Nat), 0 < i → i < SIZE_MOD → SIZE_MOD - i < b →
      runLoop rawDeck b { i := i, requested := tr } =
        .finished { i := 1, requested := tr ++ List.replicate (SIZE_MOD - i) 0 } := by
  intro b
  induction b with
  | zero =>
    intro i tr _ _ hb
    exact absurd hb (Nat.not_lt_zero _)
  | succ b ih =>
    intro i tr hpos hlt hb
    rw [runLoop, loopIter_pos rawDeck hne i tr hpos]
    show runLoop rawDeck b _ = _
    by_cases hwrap : i + 1 = SIZE_MOD
    · have hone : SIZE_MOD - i = 1 := by omega
      have hmod : (i + 1) % SIZE_MOD = 0 := by rw [hwrap]; exact Nat.mod_self _
      rw [hmod, hone]
      obtain ⟨b', rfl⟩ : ∃ b', b = b' + 1 := ⟨b - 1, by omega⟩
      rw [runLoop, loopIter_zero]
      rfl
    · have hlt' : i + 1 < SIZE_MOD := by omega
      rw [Nat.mod_eq_of_lt hlt', ih (i + 1) (tr ++ [0]) (by omega) hlt' (by omega),
        replicate_snoc_zero]
      have : SIZE_MOD - (i + 1) + 1 = SIZE_MOD - i := by omega
      rw [this]

theorem count_lt (rawDeck : RawDeck) : rawDeck.getNumberOfKeywords < SIZE_MOD :=
  Nat.mod_lt _ SIZE_MOD_pos

theorem ne_nil_of_count_pos (rawDeck : RawDeck) (h : 0 < rawDeck.getNumberOfKeywords) :
    rawDeck ≠ [] := by
  intro hnil
  subst hnil
  simp [RawDeck.getNumberOfKeywords] at h

theorem passes_of_pos (rawDeck : RawDeck) (h : 0 < rawDeck.getNumberOfKeywords) :
    passes rawDeck = SIZE_MOD - rawDeck.getNumberOfKeywords := by
  unfold passes
  exact Nat.mod_eq_of_lt (by have := count_lt rawDeck; omega)

theorem passes_of_zero (rawDeck : RawDeck) (h : rawDeck.getNumberOfKeywords = 0) :
    passes rawDeck = 0 := by
  unfold passes
  rw [h, Nat.sub_zero, Nat.mod_self]

theorem keywordLoop_running (rawDeck : RawDeck) (b : Nat) (hb : b ≤ passes rawDeck) :
    keywordLoop rawDeck b =
      .running { i := (rawDeck.getNumberOfKeywords + b) % SIZE_MOD,
                 requested := List.replicate b 0 } := by
  unfold keywordLoop
  rcases Nat.eq_zero_or_pos rawDeck.getNumberOfKeywords with h0 | hpos
  · rw [passes_of_zero rawDeck h0] at hb
    have hb0 : b = 0 := by omega
    subst hb0
    rw [h0]
    simp [runLoop, Nat.mod_eq_of_lt SIZE_MOD_pos]
  · rw [passes_of_pos rawDeck hpos] at hb
    have hlt := count_lt rawDeck
    have := runLoop_running rawDeck (ne_nil_of_count_pos rawDeck hpos) b
      rawDeck.getNumberOfKeywords [] hpos hlt (by omega)
    simpa using this

theorem keywordLoop_finished (rawDeck : RawDeck) (b : Nat) (hb : passes rawDeck < b) :
    keywordLoop rawDeck b =
      .finished { i := 1, requested := List.replicate (passes rawDeck) 0 } := by
  unfold keywordLoop
  rcases Nat.eq_zero_or_pos rawDeck.getNumberOfKeywords with h0 | hpos
  · rw [passes_of_zero rawDeck h0] at hb ⊢
    obtain ⟨b', rfl⟩ : ∃ b', b = b' + 1 := ⟨b - 1, by omega⟩
    rw [h0, runLoop, loopIter_zero]
    rfl
  · rw [passes_of_pos rawDeck hpos] at hb ⊢
    have hlt := count_lt rawDeck
    have := runLoop_finished rawDeck (ne_nil_of_count_pos rawDeck hpos) b
      rawDeck.getNumberOfKeywords [] hpos hlt hb
    simpa using this

theorem loopIter_requested (rawDeck : RawDeck) (s : LoopState) :
    (match loopIter rawDeck s with
      | .exit s' => s'.requested
      | .again s' => s'.requested
      | .throw _ s' => s'.requested) =
      if s.i = 0 then s.requested else s.requested ++ [0] := by
  unfold loopIter postIncrement
  by_cases h : s.i = 0
  · simp [h]
  · simp only [h, if_false]
    cases rawDeck.getKeyword 0 <;> rfl

theorem passes_sample : passes sampleRawDeck = SIZE_MOD - 2 := by
  have hlt : 2 < SIZE_MOD := by
    unfold SIZE_MOD
    decide
  have hn : RawDeck.getNumberOfKeywords sampleRawDeck = 2 := by
    show 2 % SIZE_MOD = 2
    exact Nat.mod_eq_of_lt hlt
  rw [passes_of_pos sampleRawDeck (by rw [hn]; decide), hn]

theorem passes_single : passes [rawDIMENS] = SIZE_MOD - 1 := by
  have hn : RawDeck.getNumberOfKeywords [rawDIMENS] = 1 := by
    show 1 % SIZE_MOD = 1
    exact Nat.mod_eq_of_lt one_lt_SIZE_MOD
  rw [passes_of_pos [rawDIMENS] (by rw [hn]; decide), hn]

/-- Allowed more evaluations than the loop needs, `Parser::parse` returns: the
deck it was given, having requested index 0 on every pass. -/
theorem parse_returns (rawDeck : RawDeck) (deck : Deck) (path : String) (b : Nat)
    (hb : passes rawDeck < b) :
    Parser.parse b rawDeck deck path =
      .returned deck (List.replicate (passes rawDeck) 0)
        ["Starting parsing of file: " ++ path, "Done parsing of file: " ++ path] := by
  unfold Parser.parse
  rw [keywordLoop_finished rawDeck b hb]
  rfl

/-! ## The keyword loop of `Parser::parse` -/

/-- C2, evaluated on the code: on a raw deck of two keywords, `Parser::parse`
requests index 0 on each of its `2 ^ 64 - 2` passes through the loop body,
never requests index 1, and returns the deck it started from with no keyword
added, whereas folding every raw keyword in order requests indices 0 and 1
once each and yields a deck of two keywords. -/
theorem parse_sample_fetches_only_first :
    Parser.parse SIZE_MOD sampleRawDeck [] "CASE.DATA" =
        .returned [] (List.replicate (SIZE_MOD - 2) 0)
          ["Starting parsing of file: " ++ "CASE.DATA",
           "Done parsing of file: " ++ "CASE.DATA"] ∧
      parseSpec sampleRawDeck [] =
        ([0, 1],
         [{ name := "DIMENS", records := [["10", "10", "3"]] },
          { name := "START", records := [["1", "'JAN'", "2020"]] }]) := by
  refine ⟨?_, rfl⟩
  have hb : passes sampleRawDeck < SIZE_MOD := by
    rw [passes_sample]
    exact Nat.sub_lt SIZE_MOD_pos (by decide)
  rw [parse_returns sampleRawDeck [] "CASE.DATA" SIZE_MOD hb, passes_sample]

/-- C6, refuted as stated: on the empty raw deck the loop condition is false
at its first evaluation, and on a raw deck of one keyword it is false at
evaluation number `2 ^ 64`, after `2 ^ 64 - 1` passes through the body. -/
theorem keywordLoop_condition_becomes_false :
    keywordLoop [] 1 = .finished { i := 1, requested := [] } ∧
      keywordLoop [rawDIMENS] SIZE_MOD =
        .finished { i := 1, requested := List.replicate (SIZE_MOD - 1) 0 } := by
  refine ⟨by decide, ?_⟩
  have hb : passes [rawDIMENS] < SIZE_MOD := by
    rw [passes_single]
    exact Nat.sub_lt SIZE_MOD_pos (by decide)
  rw [keywordLoop_finished [rawDIMENS] SIZE_MOD hb, passes_single]

/-- C6, amended: with `i` started at the keyword count `n` and `i++` as the
condition, the condition is true at each of the first `(2 ^ 64 - n) mod 2 ^ 64`
evaluations and false at the next one; the loop ends there, after that many
passes through the body (none when `n = 0`). -/
theorem keywordLoop_ends_after_wraparound (rawDeck : RawDeck) :
    (∀ b, b ≤ passes rawDeck →
        keywordLoop rawDeck b =
          .running { i := (rawDeck.getNumberOfKeywords + b) % SIZE_MOD,
                     requested := List.replicate b 0 }) ∧
      (∀ b, passes rawDeck < b →
        keywordLoop rawDeck b =
          .finished { i := 1, requested := List.replicate (passes rawDeck) 0 }) ∧
      passes rawDeck =
        (if rawDeck.getNumberOfKeywords = 0 then 0
         else 2 ^ 64 - rawDeck.getNumberOfKeywords) :=
  ⟨keywordLoop_running rawDeck, keywordLoop_finished rawDeck, by
    by_cases h : rawDeck.getNumberOfKeywords = 0
    · rw [if_pos h]
      exact passes_of_zero rawDeck h
    · rw [if_neg h]
      exact passes_of_pos rawDeck (Nat.pos_of_ne_zero h)⟩

/-- C7: every pass through the body of the keyword loop requests index 0,
whatever the value of the loop variable: one pass appends the index 0 to the
requests made so far (and nothing when the condition is false), and after any
number of evaluations the requests made are all 0, one per pass. -/
theorem keywordLoop_requests_only_index_zero (rawDeck : RawDeck) (bound : Nat) :
    (∀ s : LoopState,
        (match loopIter rawDeck s with
          | .exit s' => s'.requested
          | .again s' => s'.requested
          | .throw _ s' => s'.requested) =
          if s.i = 0 then s.requested else s.requested ++ [0]) ∧
      (keywordLoop rawDeck bound).state.requested =
        List.replicate (min bound (passes rawDeck)) 0 := by
  refine ⟨loopIter_requested rawDeck, ?_⟩
  rcases le_or_lt bound (passes rawDeck) with h | h
  · rw [keywordLoop_running rawDeck bound h, Nat.min_eq_left h]
    rfl
  · rw [keywordLoop_finished rawDeck bound h, Nat.min_eq_right h.le]
    rfl

/-! ## `Parser::addKW` -/

theorem StdMap.contains_insert_self {K V : Type} [DecidableEq K] [LinearOrder K] (m : StdMap K V)
    (k : K) (v : V) : StdMap.contains (StdMap.insert m k v) k = true := by
  induction m with
  | nil => simp [StdMap.insert, StdMap.contains, StdMap.find]
  | cons hd tl ih =>
    obtain ⟨k', v'⟩ := hd
    by_cases h1 : k < k'
    · simp [StdMap.insert, h1, StdMap.contains, StdMap.find]
    · by_cases h2 : k' < k
      · have hne : k' ≠ k := ne_of_lt h2
        simpa [StdMap.insert, h1, h2, StdMap.contains, StdMap.find, hne] using ih
      · have heq : k' = k := le_antisymm (not_lt.mp h1) (not_lt.mp h2)
        simp [StdMap.insert, h1, h2, StdMap.contains, StdMap.find, heq]

theorem sampleParser_wf : StdMap.WF sampleParser.m_parserKeywords := by
  have h : ("DIMENS" : String) < "START" := by
    rw [String.lt_iff_toList_lt]
    decide
  simp only [StdMap.WF, sampleParser, schemaDIMENS, schemaSTART]
  refine List.pairwise_cons.mpr ⟨?_, List.pairwise_singleton _ _⟩
  intro a ha
  rw [List.mem_singleton] at ha
  subst ha
  exact h

/-- C1, refuted as stated: `DIMENS` is a key of the registry, and `addKW` of a
schema named `DIMENS` returns normally, with the registry as it was, where the
contract of the specification answers `DuplicateKeywordError`. -/
theorem addKW_duplicate_returns_normally :
    StdMap.contains sampleParser.m_parserKeywords schemaDIMENS2.getName = true ∧
      Parser.addKW sampleParser schemaDIMENS2 = .ok sampleParser ∧
      registerSpec sampleParser schemaDIMENS2 =
        .error (.DuplicateKeywordError "DIMENS") := by
  have hc : StdMap.contains sampleParser.m_parserKeywords schemaDIMENS2.getName = true := by
    decide
  refine ⟨hc, ?_, ?_⟩
  · unfold Parser.addKW
    rw [StdMap.insert_of_contains _ _ _ sampleParser_wf hc]
  · unfold registerSpec
    rw [if_pos hc]
    rfl

/-- C1, amended: `addKW` returns normally for every registry state and every
keyword schema, also one whose name is already a key; it raises no
`DuplicateKeywordError`, and the name is a key of the registry afterwards. -/
theorem addKW_returns_normally {Shape : Type} (p : Parser Shape) (kw : ParserKW Shape) :
    (∃ p', Parser.addKW p kw = .ok p' ∧
        StdMap.contains p'.m_parserKeywords kw.getName = true) ∧
      ∀ e, Parser.addKW p kw ≠ .error e := by
  refine ⟨⟨_, rfl, StdMap.contains_insert_self _ _ _⟩, ?_⟩
  intro e h
  cases h

/-- C9: on a registry that is a well-formed map, `addKW` of a schema whose
name is already a key leaves the registry equal to what it was (the name stays
bound to the schema registered first); `addKW` of a schema whose name is not
yet a key binds the name to that schema and leaves the binding of every other
name as it was. -/
theorem addKW_keeps_first_registration {Shape : Type} (p : Parser Shape)
    (kw : ParserKW Shape) (hwf : StdMap.WF p.m_parserKeywords) :
    (StdMap.contains p.m_parserKeywords kw.getName = true →
        Parser.addKW p kw = .ok p) ∧
      (StdMap.contains p.m_parserKeywords kw.getName = false →
        ∃ p', Parser.addKW p kw = .ok p' ∧
          StdMap.find p'.m_parserKeywords kw.getName = some kw ∧
          (∀ name, name ≠ kw.getName →
            StdMap.find p'.m_parserKeywords name = StdMap.find p.m_parserKeywords name) ∧
          StdMap.WF p'.m_parserKeywords) := by
  constructor
  · intro hc
    unfold Parser.addKW
    rw [StdMap.insert_of_contains _ _ _ hwf hc]
  · intro hc
    exact ⟨_, rfl, StdMap.find_insert_self _ _ _ hc,
      fun name hne => StdMap.find_insert_other _ _ _ name hne,
      StdMap.insert_wf _ _ _ hwf⟩

/-- C9 at the sample registry: registering a second schema named `DIMENS`
leaves the registry, and the schema bound to `DIMENS`, as they were. -/
theorem addKW_keeps_first_registration_witness :
    StdMap.WF sampleParser.m_parserKeywords ∧
      Parser.addKW sampleParser schemaDIMENS2 = .ok sampleParser ∧
      StdMap.find sampleParser.m_parserKeywords "DIMENS" = some schemaDIMENS :=
  ⟨sampleParser_wf,
   (addKW_keeps_first_registration sampleParser schemaDIMENS2 sampleParser_wf).1 (by decide),
   by decide⟩

/-! ## `MultiWriter` -/

theorem MultiWriter.writeInitLoop_all_ok {T : Ext} (args : InitArgs T) :
    ∀ (ws visited : List (OutputWriter T)) (inv : Invocations T),
      (∀ w ∈ ws, (w.writeInit args w.state).2 = .ok ()) →
      MultiWriter.writeInitLoop args ws visited inv =
        { writers :=
            visited ++ ws.map (fun w => { w with state := (w.writeInit args w.state).1 })
          invocations := inv ++ ws.map (fun w => (w.ident, Call.writeInit args))
          result := .ok () } := by
  intro ws
  induction ws with
  | nil =>
    intro visited inv _
    simp [MultiWriter.writeInitLoop]
  | cons w rest ih =>
    intro visited inv hok
    have hw : (w.writeInit args w.state).2 = .ok () := hok w (List.mem_cons_self _ _)
    have hrest : ∀ v ∈ rest, (v.writeInit args v.state).2 = .ok () :=
      fun v hv => hok v (List.mem_cons_of_mem _ hv)
    rcases hcall : w.writeInit args w.state with ⟨st, r⟩
    rw [hcall] at hw
    simp only at hw
    subst hw
    simp only [MultiWriter.writeInitLoop, hcall]
    rw [ih _ _ hrest]
    simp [hcall]

theorem MultiWriter.writeInitLoop_first_failure {T : Ext} (args : InitArgs T)
    (w : OutputWriter T) (post : List (OutputWriter T)) (e : T.Failure)
    (hw : (w.writeInit args w.state).2 = .error e) :
    ∀ (pre visited : List (OutputWriter T)) (inv : Invocations T),
      (∀ v ∈ pre, (v.writeInit args v.state).2 = .ok ()) →
      MultiWriter.writeInitLoop args (pre ++ w :: post) visited inv =
        { writers :=
            visited ++
              (pre.map (fun v => { v with state := (v.writeInit args v.state).1 }) ++
                { w with state := (w.writeInit args w.state).1 } :: post)
          invocations := inv ++ (pre ++ [w]).map (fun v => (v.ident, Call.writeInit args))
          result := .error e } := by
  intro pre
  induction pre with
  | nil =>
    intro visited inv _
    rcases hcall : w.writeInit args w.state with ⟨st, r⟩
    rw [hcall] at hw
    simp only at hw
    subst hw
    simp [MultiWriter.writeInitLoop, hcall]
  | cons v rest ih =>
    intro visited inv hok
    have hv : (v.writeInit args v.state).2 = .ok () := hok v (List.mem_cons_self _ _)
    have hrest : ∀ u ∈ rest, (u.writeInit args u.state).2 = .ok () :=
      fun u hu => hok u (List.mem_cons_of_mem _ hu)
    rcases hcall : v.writeInit args v.state with ⟨st, r⟩
    rw [hcall] at hv
    simp only at hv
    subst hv
    show MultiWriter.writeInitLoop args (v :: (rest ++ w :: post)) visited inv = _
    simp only [MultiWriter.writeInitLoop, hcall]
    refine (ih _ _ hrest).trans ?_
    simp [hcall]

theorem MultiWriter.writeTimeStepLoop_all_ok {T : Ext} (args : TimeStepArgs T) :
    ∀ (ws visited : List (OutputWriter T)) (inv : Invocations T),
      (∀ w ∈ ws, (w.writeTimeStep args w.state).2 = .ok ()) →
      MultiWriter.writeTimeStepLoop args ws visited inv =
        { writers :=
            visited ++ ws.map (fun w => { w with state := (w.writeTimeStep args w.state).1 })
          invocations := inv ++ ws.map (fun w => (w.ident, Call.writeTimeStep args))
          result := .ok () } := by
  intro ws
  induction ws with
  | nil =>
    intro visited inv _
    simp [MultiWriter.writeTimeStepLoop]
  | cons w rest ih =>
    intro visited inv hok
    have hw : (w.writeTimeStep args w.state).2 = .ok () := hok w (List.mem_cons_self _ _)
    have hrest : ∀ v ∈ rest, (v.writeTimeStep args v.state).2 = .ok () :=
      fun v hv => hok v (List.mem_cons_of_mem _ hv)
    rcases hcall : w.writeTimeStep args w.state with ⟨st, r⟩
    rw [hcall] at hw
    simp only at hw
    subst hw
    simp only [MultiWriter.writeTimeStepLoop, hcall]
    rw [ih _ _ hrest]
    simp [hcall]

theorem MultiWriter.writeTimeStepLoop_first_failure {T : Ext} (args : TimeStepArgs T)
    (w : OutputWriter T) (post : List (OutputWriter T)) (e : T.Failure)
    (hw : (w.writeTimeStep args w.state).2 = .error e) :
    ∀ (pre visited : List (OutputWriter T)) (inv : Invocations T),
      (∀ v ∈ pre, (v.writeTimeStep args v.state).2 = .ok ()) →
      MultiWriter.writeTimeStepLoop args (pre ++ w :: post) visited inv =
        { writers :=
            visited ++
              (pre.map (fun v => { v with state := (v.writeTimeStep args v.state).1 }) ++
                { w with state := (w.writeTimeStep args w.state).1 } :: post)
          invocations := inv ++ (pre ++ [w]).map (fun v => (v.ident, Call.writeTimeStep args))
          result := .error e } := by
  intro pre
  induction pre with
  | nil =>
    intro visited inv _
    rcases hcall : w.writeTimeStep args w.state with ⟨st, r⟩
    rw [hcall] at hw
    simp only at hw
    subst hw
    simp [MultiWriter.writeTimeStepLoop, hcall]
  | cons v rest ih =>
    intro visited inv hok
    have hv : (v.writeTimeStep args v.state).2 = .ok () := hok v (List.mem_cons_self _ _)
    have hrest : ∀ u ∈ rest, (u.writeTimeStep args u.state).2 = .ok () :=
      fun u hu => hok u (List.mem_cons_of_mem _ hu)
    rcases hcall : v.writeTimeStep args v.state with ⟨st, r⟩
    rw [hcall] at hv
    simp only at hv
    subst hv
    show MultiWriter.writeTimeStepLoop args (v :: (rest ++ w :: post)) visited inv = _
    simp only [MultiWriter.writeTimeStepLoop, hcall]
    refine (ih _ _ hrest).trans ?_
    simp [hcall]

/-- A list with an element on which `call` throws splits at the first such
element: every element before it returns, and it throws. -/
theorem first_failure_split {α ε : Type} (call : α → Except ε Unit) :
    ∀ ws : List α, (∃ w ∈ ws, ∃ e, call w = .error e) →
      ∃ pre w post e, ws = pre ++ w :: post ∧
        (∀ v ∈ pre, call v = .ok ()) ∧ call w = .error e := by
  intro ws
  induction ws with
  | nil =>
    rintro ⟨w, hw, _⟩
    cases hw
  | cons a rest ih =>
    rintro ⟨w, hw, e, he⟩
    cases ha : call a with
    | error ea => exact ⟨[], a, rest, ea, rfl, fun v hv => absurd hv (List.not_mem_nil v), ha⟩
    | ok u =>
      have hwrest : w ∈ rest := by
        rcases List.mem_cons.mp hw with rfl | h
        · rw [ha] at he
          cases he
        · exact h
      obtain ⟨pre, w', post, e', hsplit, hpre, hw'⟩ := ih ⟨w, hwrest, e, he⟩
      refine ⟨a :: pre, w', post, e', by rw [hsplit]; rfl, ?_, hw'⟩
      intro v hv
      rcases List.mem_cons.mp hv with rfl | h
      · exact ha
      · exact hpre v h

/-- C3: when no owned writer fails, one call of `MultiWriter::writeInit`
(respectively `writeTimeStep`) invokes `writeInit` (respectively
`writeTimeStep`) on every writer of the list exactly once, in list order, with
the arguments received, and nothing else: every writer is left in the state
that one call of its own method with those arguments takes it to, the
invocations made are one per writer in list order, and the call returns; on
the empty list no invocation is made and no writer appears. -/
theorem MultiWriter_forwards_to_every_writer {T : Ext} (m : MultiWriter T)
    (ia : InitArgs T) (ta : TimeStepArgs T) :
    ((∀ w ∈ m.writers_, (w.writeInit ia w.state).2 = .ok ()) →
        m.writeInit ia =
          { writers :=
              m.writers_.map (fun w => { w with state := (w.writeInit ia w.state).1 })
            invocations := m.writers_.map (fun w => (w.ident, Call.writeInit ia))
            result := .ok () }) ∧
      ((∀ w ∈ m.writers_, (w.writeTimeStep ta w.state).2 = .ok ()) →
        m.writeTimeStep ta =
          { writers :=
              m.writers_.map
                (fun w => { w with state := (w.writeTimeStep ta w.state).1 })
            invocations := m.writers_.map (fun w => (w.ident, Call.writeTimeStep ta))
            result := .ok () }) ∧
      (MultiWriter.mk ([] : List (OutputWriter T))).writeInit ia =
        { writers := [], invocations := [], result := .ok () } ∧
      (MultiWriter.mk ([] : List (OutputWriter T))).writeTimeStep ta =
        { writers := [], invocations := [], result := .ok () } := by
  refine ⟨?_, ?_, rfl, rfl⟩
  · intro hok
    unfold MultiWriter.writeInit
    rw [MultiWriter.writeInitLoop_all_ok ia m.writers_ [] [] hok]
    rfl
  · intro hok
    unfold MultiWriter.writeTimeStep
    rw [MultiWriter.writeTimeStepLoop_all_ok ta m.writers_ [] [] hok]
    rfl

/-- C3 at a multiplexer over two writers that accept every call and keep the
list of the calls they received: after `writeInit` each has received that one
call more, with the time passed in, and likewise after `writeTimeStep`. -/
theorem MultiWriter_forwards_to_every_writer_witness :
    ((MultiWriter.mk [sampleWriterA, sampleWriterC]).writeInit sampleInit =
        { writers :=
            [{ sampleWriterA with state := [("writeInit", 1577836800)] },
             { sampleWriterC with
                 state := [("writeInit", 0), ("writeInit", 1577836800)] }]
          invocations := [(1, Call.writeInit sampleInit), (3, Call.writeInit sampleInit)]
          result := .ok () }) ∧
      ((MultiWriter.mk [sampleWriterA, sampleWriterC]).writeTimeStep sampleStep =
        { writers :=
            [{ sampleWriterA with state := [("writeTimeStep", 1)] },
             { sampleWriterC with state := [("writeInit", 0), ("writeTimeStep", 1)] }]
          invocations :=
            [(1, Call.writeTimeStep sampleStep), (3, Call.writeTimeStep sampleStep)]
          result := .ok () }) :=
  ⟨(MultiWriter_forwards_to_every_writer ⟨[sampleWriterA, sampleWriterC]⟩
      sampleInit sampleStep).1
      (fun w hw => by
        rcases List.mem_cons.mp hw with rfl | hw
        · rfl
        · rw [List.mem_singleton.mp hw]
          rfl),
   (MultiWriter_forwards_to_every_writer ⟨[sampleWriterA, sampleWriterC]⟩
      sampleInit sampleStep).2.1
      (fun w hw => by
        rcases List.mem_cons.mp hw with rfl | hw
        · rfl
        · rw [List.mem_singleton.mp hw]
          rfl)⟩

/-- C8: when at least one owned writer fails on a call of
`MultiWriter::writeInit` (respectively `writeTimeStep`), the list splits at
the first failing writer; the multiplexer's call fails with that writer's
failure, and the invocations made are exactly one on each writer before it, in
list order, followed by the one on it: every writer before it and the failing
one are left in the state one call of their own method takes them to, and no
writer after it is invoked, each being left as it was. -/
theorem MultiWriter_propagates_first_failure {T : Ext} (m : MultiWriter T)
    (ia : InitArgs T) (ta : TimeStepArgs T) :
    ((∃ w ∈ m.writers_, ∃ e, (w.writeInit ia w.state).2 = .error e) →
        ∃ pre w post e, m.writers_ = pre ++ w :: post ∧
          (∀ v ∈ pre, (v.writeInit ia v.state).2 = .ok ()) ∧
          (w.writeInit ia w.state).2 = .error e ∧
          m.writeInit ia =
            { writers :=
                pre.map (fun v => { v with state := (v.writeInit ia v.state).1 }) ++
                  { w with state := (w.writeInit ia w.state).1 } :: post
              invocations := (pre ++ [w]).map (fun v => (v.ident, Call.writeInit ia))
              result := .error e }) ∧
      ((∃ w ∈ m.writers_, ∃ e, (w.writeTimeStep ta w.state).2 = .error e) →
        ∃ pre w post e, m.writers_ = pre ++ w :: post ∧
          (∀ v ∈ pre, (v.writeTimeStep ta v.state).2 = .ok ()) ∧
          (w.writeTimeStep ta w.state).2 = .error e ∧
          m.writeTimeStep ta =
            { writers :=
                pre.map (fun v => { v with state := (v.writeTimeStep ta v.state).1 }) ++
                  { w with state := (w.writeTimeStep ta w.state).1 } :: post
              invocations := (pre ++ [w]).map (fun v => (v.ident, Call.writeTimeStep ta))
              result := .error e }) := by
  constructor
  · intro hfail
    obtain ⟨pre, w, post, e, hsplit, hpre, hw⟩ :=
      first_failure_split (fun w : OutputWriter T => (w.writeInit ia w.state).2)
        m.writers_ hfail
    refine ⟨pre, w, post, e, hsplit, hpre, hw, ?_⟩
    unfold MultiWriter.writeInit
    rw [hsplit, MultiWriter.writeInitLoop_first_failure ia w post e hw pre [] [] hpre]
    rfl
  · intro hfail
    obtain ⟨pre, w, post, e, hsplit, hpre, hw⟩ :=
      first_failure_split (fun w : OutputWriter T => (w.writeTimeStep ta w.state).2)
        m.writers_ hfail
    refine ⟨pre, w, post, e, hsplit, hpre, hw, ?_⟩
    unfold MultiWriter.writeTimeStep
    rw [hsplit, MultiWriter.writeTimeStepLoop_first_failure ta w post e hw pre [] [] hpre]
    rfl

/-- C8 at a multiplexer over an accepting writer, a failing writer and another
accepting writer: the call fails with the failure of the second writer, after
one invocation on the first and one on the second, and none on the third,
which is left as it was. -/
theorem MultiWriter_propagates_first_failure_witness :
    (∃ pre w post e, [sampleWriterA, sampleWriterB, sampleWriterC] = pre ++ w :: post ∧
        (∀ v ∈ pre, (v.writeInit sampleInit v.state).2 = .ok ()) ∧
        (w.writeInit sampleInit w.state).2 = .error e ∧
        (MultiWriter.mk [sampleWriterA, sampleWriterB, sampleWriterC]).writeInit sampleInit =
          { writers :=
              pre.map (fun v => { v with state := (v.writeInit sampleInit v.state).1 }) ++
                { w with state := (w.writeInit sampleInit w.state).1 } :: post
            invocations := (pre ++ [w]).map (fun v => (v.ident, Call.writeInit sampleInit))
            result := .error e }) ∧
      (MultiWriter.mk [sampleWriterA, sampleWriterB, sampleWriterC]).writeInit sampleInit =
        { writers :=
            [{ sampleWriterA with state := [("writeInit", 1577836800)] },
             { sampleWriterB with state := [("writeInit", 1577836800)] },
             sampleWriterC]
          invocations := [(1, Call.writeInit sampleInit), (2, Call.writeInit sampleInit)]
          result := .error "disk full" } ∧
      (MultiWriter.mk [sampleWriterA, sampleWriterB, sampleWriterC]).writeTimeStep sampleStep =
        { writers :=
            [{ sampleWriterA with state := [("writeTimeStep", 1)] },
             { sampleWriterB with state := [("writeTimeStep", 1)] },
             sampleWriterC]
          invocations :=
            [(1, Call.writeTimeStep sampleStep), (2, Call.writeTimeStep sampleStep)]
          result := .error "disk full" } :=
  ⟨(MultiWriter_propagates_first_failure
      ⟨[sampleWriterA, sampleWriterB, sampleWriterC]⟩ sampleInit sampleStep).1
      ⟨sampleWriterB, List.mem_cons_of_mem _ (List.mem_cons_self _ _), "disk full", rfl⟩,
   rfl, rfl⟩

/-! ## `OutputWriter::create` -/

theorem configured_idem {T : Ext} (params : ParameterGroup) (es : EclipseState T) :
    configured params (configured params es) = configured params es := rfl

/-- The loop of `create`: the writers built are those of the enabled entries
that remain, latest first, each constructed on the configured state; the state
is the configured one when an entry is enabled and is untouched otherwise. -/
theorem createLoop_eq {T : Ext} (params : ParameterGroup) (phaseUsage : T.PhaseUsage)
    (grid : UnstructuredGrid T) :
    ∀ (formats : List (String × CreateFn T)) (es : EclipseState T)
      (list : List (OutputWriter T)),
      OutputWriter.createLoop params phaseUsage grid formats es list =
        (if (enabledFormats params formats).isEmpty then es else configured params es,
         ((enabledFormats params formats).map
            (fun e => e.2 params (configured params es) phaseUsage grid)).reverse ++ list) := by
  intro formats
  induction formats with
  | nil =>
    intro es list
    simp [OutputWriter.createLoop, enabledFormats]
  | cons hd rest ih =>
    intro es list
    obtain ⟨name, ctor⟩ := hd
    by_cases hflag : params.getDefaultBool name false = true
    · have hstep : OutputWriter.createLoop params phaseUsage grid ((name, ctor) :: rest) es list =
          OutputWriter.createLoop params phaseUsage grid rest (configured params es)
            (ctor params (configured params es) phaseUsage grid :: list) := by
        simp only [OutputWriter.createLoop, hflag, if_true]
        rfl
      have hen : enabledFormats params ((name, ctor) :: rest) =
          (name, ctor) :: enabledFormats params rest := by
        simp [enabledFormats, hflag]
      rw [hstep, ih, hen, configured_idem]
      simp
    · have hflag' : params.getDefaultBool name false = false := by
        simpa using hflag
      have hstep : OutputWriter.createLoop params phaseUsage grid ((name, ctor) :: rest) es list =
          OutputWriter.createLoop params phaseUsage grid rest es list := by
        simp [OutputWriter.createLoop, hflag']
      have hen : enabledFormats params ((name, ctor) :: rest) =
          enabledFormats params rest := by
        simp [enabledFormats, hflag']
      rw [hstep, ih, hen]

theorem enabledFormats_FORMATS {T : Ext} (EclipseWriter : FormatCtor T)
    (params : ParameterGroup) :
    enabledFormats params (FORMATS EclipseWriter) =
      if params.boolValue "output_ecl" = some true then FORMATS EclipseWriter else [] := by
  unfold enabledFormats FORMATS ParameterGroup.getDefaultBool
  cases h : params.boolValue "output_ecl" with
  | none => simp [h]
  | some b => cases b <;> simp [h]

/-- C4: the multiplexer returned by `create` owns, for a table of formats, one
writer for each entry whose key reads as true (false when absent), built by
that entry's constructor, latest entry first, and no other writer; with the
table `FORMATS` it owns the single `EclipseWriter` when `output_ecl` reads as
true and owns no writer when `output_ecl` is false or absent. -/
theorem create_owns_enabled_formats {T : Ext} (formats : List (String × CreateFn T))
    (EclipseWriter : FormatCtor T) (params : ParameterGroup) (es : EclipseState T)
    (phaseUsage : T.PhaseUsage) (grid : UnstructuredGrid T) :
    (OutputWriter.create formats params es phaseUsage grid).2.writers_ =
        ((formats.filter (fun e => (params.boolValue e.1).getD false)).map
          (fun e => e.2 params (configured params es) phaseUsage grid)).reverse ∧
      (OutputWriter.create (FORMATS EclipseWriter) params es phaseUsage grid).2.writers_ =
        (if params.boolValue "output_ecl" = some true then
          [EclipseWriter (configured params es) grid.number_of_cells grid.global_cell]
         else []) := by
  constructor
  · unfold OutputWriter.create
    simp only [createLoop_eq, List.append_nil]
    rfl
  · unfold OutputWriter.create
    simp only [createLoop_eq, List.append_nil, enabledFormats_FORMATS]
    by_cases h : params.boolValue "output_ecl" = some true
    · simp only [h, if_true]
      rfl
    · simp only [h, if_false]
      rfl

/-- C5: when `output_ecl` reads as true, after `create` with the table
`FORMATS` the IO configuration has output-enabled equal to the value of the
parameter `output` (true when absent) and output directory equal to the value
of the parameter `output_dir` (`.` when absent); the rest of the state is as
it was. -/
theorem create_sets_io_config {T : Ext} (EclipseWriter : FormatCtor T)
    (params : ParameterGroup) (es : EclipseState T) (phaseUsage : T.PhaseUsage)
    (grid : UnstructuredGrid T) (h : params.boolValue "output_ecl" = some true) :
    (OutputWriter.create (FORMATS EclipseWriter) params es phaseUsage grid).1.ioConfig =
        { m_output_enabled := (params.boolValue "output").getD true,
          m_output_dir := (params.stringValue "output_dir").getD "." } ∧
      (OutputWriter.create (FORMATS EclipseWriter) params es phaseUsage grid).1.rest =
        es.rest := by
  unfold OutputWriter.create
  simp only [createLoop_eq, enabledFormats_FORMATS, h, if_true]
  constructor <;> rfl

/-- C5 at parameters `output_ecl=true output=false output_dir=results`: output
is disabled and the directory is `results` afterwards. -/
theorem create_sets_io_config_witness :
    sampleParamsOn.boolValue "output_ecl" = some true ∧
      (OutputWriter.create (FORMATS sampleEclipseWriter) sampleParamsOn sampleState
          (0 : Nat) sampleGrid).1.ioConfig =
        { m_output_enabled := false, m_output_dir := "results" } :=
  ⟨by decide,
   (create_sets_io_config sampleEclipseWriter sampleParamsOn sampleState (0 : Nat)
      sampleGrid (by decide)).1⟩

/-- C10: when no key of the table of formats reads as true, the state after
`create`, and with it the IO configuration, is equal to the one before,
whatever the parameters `output` and `output_dir` are; so it is with the table
`FORMATS` when `output_ecl` is false or absent. -/
theorem create_leaves_io_config {T : Ext} (formats : List (String × CreateFn T))
    (params : ParameterGroup) (es : EclipseState T) (phaseUsage : T.PhaseUsage)
    (grid : UnstructuredGrid T)
    (h : ∀ e ∈ formats, params.getDefaultBool e.1 false = false) :
    (OutputWriter.create formats params es phaseUsage grid).1 = es ∧
      (OutputWriter.create formats params es phaseUsage grid).1.ioConfig = es.ioConfig := by
  have hnil : enabledFormats params formats = [] := by
    unfold enabledFormats
    rw [List.filter_eq_nil_iff]
    intro e he
    rw [h e he]
    decide
  have hst : (OutputWriter.create formats params es phaseUsage grid).1 = es := by
    unfold OutputWriter.create
    simp only [createLoop_eq, hnil, List.isEmpty_nil, if_true]
  exact ⟨hst, by rw [hst]⟩

/-- C10 at parameters `output=false output_dir=results` without `output_ecl`,
with the table `FORMATS`: the IO configuration still has output enabled and
directory `out`. -/
theorem create_leaves_io_config_witness :
    (OutputWriter.create (FORMATS sampleEclipseWriter) sampleParamsOff sampleState
        (0 : Nat) sampleGrid).1.ioConfig =
      { m_output_enabled := true, m_output_dir := "out" } :=
  (create_leaves_io_config (FORMATS sampleEclipseWriter) sampleParamsOff sampleState
    (0 : Nat) sampleGrid
    (fun e he => by
      rw [List.mem_singleton.mp he]
      decide)).2

end Opm
